import Mathlib

/-!
Shallow embedding of `src/spkf/sigma_base.h` (class `SigmaBase`), the
sigma-point core of the spkf Kalman-filter library, together with theorems
settling the specification claims about it.

Modelling conventions:
* Floating-point scalars are embedded as exact rationals `ℚ`; fixed-size
  Eigen vectors/matrices become total functions `ℕ → ℚ` / `ℕ → ℕ → ℚ`
  whose entries beyond the compile-time dimensions are irrelevant
  (all stated properties quantify only over in-range indices).
* The external linear-algebra substrate (Eigen) is a parameter: the lower
  Cholesky factorization `LLT` is an arbitrary function
  `cholL : ℕ → Mat → Mat × Bool` returning the factor `matrixL()` together
  with the success flag `info()`.  The source code reads only the factor
  and never the flag, and the embedding mirrors that exactly.
* The variant hooks (`_f`, `_h`, `wm0`, `wmi`, `gamma`,
  `_process_covar_sp`, `_innovation_covar_sp`, `_kalman_gain_sp`,
  `_update_covar_sp`) live in the derived class, outside this translation
  unit; they are parameters of the corresponding operations.
* Eigen fixed-size matrices are value-uninitialized by default, so the
  member storage existing before the constructor body runs is modelled as
  an explicit indeterminate pre-state `mem : SBState`.
* `sqrt` of the external math library is a parameter `sq : ℚ → ℚ`; the
  source applies it unconditionally to `gamma`.
-/

namespace spkf

/-- Vectors of scalars (Eigen `Matrix<scalar_t, n, 1>`), entries beyond the
fixed dimension irrelevant. -/
def Vec : Type := ℕ → ℚ

/-- Matrices of scalars (Eigen `Matrix<scalar_t, m, n>`). -/
def Mat : Type := ℕ → ℕ → ℚ

/-- `L = nx + nx + nz`, the augmented state dimension (sigma_base.h line 49). -/
def L (nx nz : ℕ) : ℕ := nx + nx + nz

/-- `r = 2*L + 1`, the number of sigma points (sigma_base.h line 50). -/
def r (nx nz : ℕ) : ℕ := 2 * L nx nz + 1

/-- Assignment through an Eigen block `Ref`: overwrite the `h × w` block of
`dst` with upper-left corner `(r0, c0)` by `src`, leaving every other entry
of `dst` unchanged. -/
def writeBlock (dst : Mat) (r0 c0 h w : ℕ) (src : Mat) : Mat :=
  fun i j =>
    if r0 ≤ i ∧ i < r0 + h ∧ c0 ≤ j ∧ j < c0 + w then src (i - r0) (j - c0)
    else dst i j

/-- The mutable storage of one `SigmaBase` filter instance: the KFBase-held
state and covariance, the augmented vector/matrix, the augmented sigma-point
matrix (whose row ranges `_state_sigmas`, `_proc_noise_sigmas`,
`_obs_noise_sigmas` and diagonal blocks `_chol_covar`, `_chol_proc_covar`,
`_chol_obs_covar` are aliases, not copies), the observation sigma points and
the cross covariance. -/
structure SBState where
  state : Vec
  covar : Mat
  aug_vector : Vec
  aug_matrix : Mat
  aug_sigmas : Mat
  obs_sigmas : Mat
  cross_covar : Mat

/-- Modelled from the spec: `KFBase::proc_noise()` (kf_base.h is not in
src/) returns the stored process-noise mean, which the spec fixes as zero
("zero-mean process-noise"). -/
def proc_noise : Vec := fun _ => 0

/-- Modelled from the spec: `KFBase::obs_noise()` (kf_base.h is not in
src/) returns the stored observation-noise mean, which the spec fixes as
zero ("zero-mean observation-noise"). -/
def obs_noise : Vec := fun _ => 0

/-- The `SigmaBase` constructor (sigma_base.h lines 69-83): Cholesky-factor
the three covariances via the substrate `cholL` and assign the factors
through the block refs `_chol_covar`, `_chol_proc_covar`, `_chol_obs_covar`
into the diagonal blocks of `_aug_matrix`.  `mem` is the indeterminate
value-uninitialized member storage before the constructor body runs; the
storage of `state`/`covar` in the base is modelled from the spec (kf_base.h
is not in src/). -/
def construct (nx nz : ℕ) (cholL : ℕ → Mat → Mat × Bool) (mem : SBState)
    (state : Vec) (covar proc_covar obs_covar : Mat) : SBState :=
  { mem with
    state := state
    covar := covar
    aug_matrix :=
      writeBlock
        (writeBlock
          (writeBlock mem.aug_matrix 0 0 nx nx (cholL nx covar).1)
          nx nx nx nx (cholL nx proc_covar).1)
        (nx + nx) (nx + nx) nz nz (cholL nz obs_covar).1 }

/-- The augmented vector populated by `_generate_sigmas`
(sigma_base.h lines 187-190): state into rows `[0,nx)`, the process-noise
mean into rows `[nx,2nx)`, the observation-noise mean into rows `[2nx,L)`. -/
def aug_vec (nx nz : ℕ) (state_k : Vec) (old : Vec) : Vec :=
  fun i =>
    if i < nx then state_k i
    else if i < nx + nx then proc_noise (i - nx)
    else if i < L nx nz then obs_noise (i - (nx + nx))
    else old i

/-- The sigma-point columns written by `_generate_sigmas`
(sigma_base.h lines 193-201): column `0` is the augmented vector `a`;
for `i = 1..L`, column `i` is `a + sg * m.col(i-1)` and column `i+L` is
`a - sg * m.col(i-1)`, where `sg = sqrt(gamma)` and `m` is `_aug_matrix`. -/
def sig_cols (nx nz : ℕ) (sg : ℚ) (a : Vec) (m : Mat) (old : Mat) : Mat :=
  fun i j =>
    if j = 0 then a i
    else if 1 ≤ j ∧ j ≤ L nx nz then a i + sg * m i (j - 1)
    else if L nx nz + 1 ≤ j ∧ j ≤ 2 * L nx nz then a i - sg * m i (j - 1 - L nx nz)
    else old i j

/-- `SigmaBase::_generate_sigmas` (sigma_base.h lines 177-204): recompute
the state-covariance Cholesky factor into the `(0,0)` block of
`_aug_matrix`, populate `_aug_vector`, set sigma column 0 to the augmented
vector and columns `1..2L` to the symmetric spread about it, and return
`true`.  The success flag of the factorization is never consulted and
`sqrt` is applied to `gamma` unconditionally, exactly as in the source. -/
def generate_sigmas (nx nz : ℕ) (cholL : ℕ → Mat → Mat × Bool) (sq : ℚ → ℚ)
    (gamma : ℚ) (state_k : Vec) (covar_k : Mat) (s : SBState) : SBState × Bool :=
  let m := writeBlock s.aug_matrix 0 0 nx nx (cholL nx covar_k).1
  let a := aug_vec nx nz state_k s.aug_vector
  ({ s with
      aug_matrix := m
      aug_vector := a
      aug_sigmas := sig_cols nx nz (sq gamma) a m s.aug_sigmas }, true)

/-- `SigmaBase::_process` (sigma_base.h lines 98-122): regenerate sigma
points from the caller's state and the stored covariance, push every state
sigma column through the process model `f` in place (reading that column's
process-noise rows), and accumulate the weighted state mean
`wm0 * col(0) + wmi * Σ_{i=1..r-1} col(i)`.  Returns the mean written back
into `state_k`, the updated storage, and `true`. -/
def process (nx nz : ℕ) (cholL : ℕ → Mat → Mat × Bool) (sq : ℚ → ℚ)
    (f : Vec → Vec → Vec → ℚ → Vec) (wm0 wmi gamma : ℚ)
    (state_k control_k : Vec) (del_k : ℚ) (s : SBState) :
    Vec × SBState × Bool :=
  let s1 := (generate_sigmas nx nz cholL sq gamma state_k s.covar s).1
  let newsig : Mat := fun i j =>
    if i < nx ∧ j < r nx nz then
      f (fun p => s1.aug_sigmas p j) control_k
        (fun p => s1.aug_sigmas (nx + p) j) del_k i
    else s1.aug_sigmas i j
  let mean : Vec := fun i =>
    wm0 * newsig i 0 + wmi * ∑ j ∈ Finset.range (2 * L nx nz), newsig i (j + 1)
  (mean, { s1 with aug_sigmas := newsig }, true)

/-- `SigmaBase::_observe` (sigma_base.h lines 131-154): regenerate sigma
points from the stored state and covariance, push every state sigma column
through the observation model `h` (reading that column's observation-noise
rows) into `_obs_sigmas`, and accumulate the weighted observation mean.
Returns the mean, the updated storage, and `true`. -/
def observe (nx nz : ℕ) (cholL : ℕ → Mat → Mat × Bool) (sq : ℚ → ℚ)
    (h : Vec → Vec → Vec) (wm0 wmi gamma : ℚ) (s : SBState) :
    Vec × SBState × Bool :=
  let s1 := (generate_sigmas nx nz cholL sq gamma s.state s.covar s).1
  let newobs : Mat := fun i j =>
    if i < nz ∧ j < r nx nz then
      h (fun p => s1.aug_sigmas p j) (fun p => s1.aug_sigmas (nx + nx + p) j) i
    else s.obs_sigmas i j
  let mean : Vec := fun i =>
    wm0 * newobs i 0 + wmi * ∑ j ∈ Finset.range (2 * L nx nz), newobs i (j + 1)
  (mean, { s1 with obs_sigmas := newobs }, true)

/-- `SigmaBase::_process_covar` (sigma_base.h lines 124-129): delegate to
the variant hook `_process_covar_sp(covar_k, _chol_covar)`, which may write
through both refs (the second aliases the `(0,0)` block of `_aug_matrix`),
and return `true`. -/
def process_covar (nx : ℕ) (hook : Mat → Mat → Mat × Mat) (covar_k : Mat)
    (s : SBState) : Mat × SBState × Bool :=
  let chol : Mat := fun i j => s.aug_matrix i j
  let res := hook covar_k chol
  (res.1, { s with aug_matrix := writeBlock s.aug_matrix 0 0 nx nx res.2 }, true)

/-- `SigmaBase::_innovation_covar` (sigma_base.h lines 156-161): delegate to
the variant hook `_innovation_covar_sp(inov_covar_k)` and return `true`. -/
def innovation_covar (hook : Mat → Mat) (inov_covar_k : Mat) (s : SBState) :
    Mat × SBState × Bool :=
  (hook inov_covar_k, s, true)

/-- `SigmaBase::_kalman_gain` (sigma_base.h lines 163-168): delegate to the
variant hook `_kalman_gain_sp(kalman_gain_k, _cross_covar)`, which may write
both, and return `true`. -/
def kalman_gain (hook : Mat → Mat → Mat × Mat) (kalman_gain_k : Mat)
    (s : SBState) : Mat × SBState × Bool :=
  let res := hook kalman_gain_k s.cross_covar
  (res.1, { s with cross_covar := res.2 }, true)

/-- `SigmaBase::_update_covar` (sigma_base.h lines 170-175): delegate to the
variant hook `_update_covar_sp(covar_k, _chol_covar)` and return `true`. -/
def update_covar (nx : ℕ) (hook : Mat → Mat → Mat × Mat) (covar_k : Mat)
    (s : SBState) : Mat × SBState × Bool :=
  let chol : Mat := fun i j => s.aug_matrix i j
  let res := hook covar_k chol
  (res.1, { s with aug_matrix := writeBlock s.aug_matrix 0 0 nx nx res.2 }, true)

/-! ### Projection lemmas for `generate_sigmas` -/

theorem gs_aug_sigmas (nx nz : ℕ) (cholL : ℕ → Mat → Mat × Bool) (sq : ℚ → ℚ)
    (gamma : ℚ) (state_k : Vec) (covar_k : Mat) (s : SBState) :
    (generate_sigmas nx nz cholL sq gamma state_k covar_k s).1.aug_sigmas
      = sig_cols nx nz (sq gamma) (aug_vec nx nz state_k s.aug_vector)
          (writeBlock s.aug_matrix 0 0 nx nx (cholL nx covar_k).1) s.aug_sigmas := rfl

theorem gs_aug_vector (nx nz : ℕ) (cholL : ℕ → Mat → Mat × Bool) (sq : ℚ → ℚ)
    (gamma : ℚ) (state_k : Vec) (covar_k : Mat) (s : SBState) :
    (generate_sigmas nx nz cholL sq gamma state_k covar_k s).1.aug_vector
      = aug_vec nx nz state_k s.aug_vector := rfl

theorem gs_aug_matrix (nx nz : ℕ) (cholL : ℕ → Mat → Mat × Bool) (sq : ℚ → ℚ)
    (gamma : ℚ) (state_k : Vec) (covar_k : Mat) (s : SBState) :
    (generate_sigmas nx nz cholL sq gamma state_k covar_k s).1.aug_matrix
      = writeBlock s.aug_matrix 0 0 nx nx (cholL nx covar_k).1 := rfl

/-! ### Behaviour of `sig_cols` on in-range columns -/

theorem sig_cols_col_zero (nx nz : ℕ) (sg : ℚ) (a : Vec) (m old : Mat) (i : ℕ) :
    sig_cols nx nz sg a m old i 0 = a i := by
  unfold sig_cols
  simp

theorem sig_cols_col_lo (nx nz : ℕ) (sg : ℚ) (a : Vec) (m old : Mat) (i k : ℕ)
    (hk1 : 1 ≤ k) (hk2 : k ≤ L nx nz) :
    sig_cols nx nz sg a m old i k = a i + sg * m i (k - 1) := by
  unfold sig_cols
  rw [if_neg (by omega), if_pos ⟨hk1, hk2⟩]

theorem sig_cols_col_hi (nx nz : ℕ) (sg : ℚ) (a : Vec) (m old : Mat) (i k : ℕ)
    (hk1 : 1 ≤ k) (hk2 : k ≤ L nx nz) :
    sig_cols nx nz sg a m old i (k + L nx nz) = a i - sg * m i (k - 1) := by
  unfold sig_cols
  rw [if_neg (by omega), if_neg (by omega), if_pos ⟨by omega, by omega⟩]
  have hidx : k + L nx nz - 1 - L nx nz = k - 1 := by omega
  rw [hidx]

/-! ### Re-running the generator changes nothing (building blocks) -/

theorem writeBlock_stable (dst : Mat) (r0 c0 hh w : ℕ) (src : Mat) :
    writeBlock (writeBlock dst r0 c0 hh w src) r0 c0 hh w src
      = writeBlock dst r0 c0 hh w src := by
  funext i j
  unfold writeBlock
  split_ifs <;> rfl

theorem aug_vec_stable (nx nz : ℕ) (state_k : Vec) (old : Vec) :
    aug_vec nx nz state_k (aug_vec nx nz state_k old)
      = aug_vec nx nz state_k old := by
  funext i
  unfold aug_vec
  split_ifs <;> rfl

theorem sig_cols_stable (nx nz : ℕ) (sg : ℚ) (a : Vec) (m old : Mat) :
    sig_cols nx nz sg a m (sig_cols nx nz sg a m old)
      = sig_cols nx nz sg a m old := by
  funext i j
  unfold sig_cols
  split_ifs <;> rfl

/-! ### Weighted-sum helper -/

theorem sum_range_two_mul (n : ℕ) (g : ℕ → ℚ) :
    ∑ j ∈ Finset.range (2 * n), g j
      = (∑ j ∈ Finset.range n, g j) + ∑ j ∈ Finset.range n, g (n + j) := by
  rw [← Finset.sum_range_add_sum_Ico g (Nat.le_mul_of_pos_left n (by norm_num))]
  rw [Finset.sum_Ico_eq_sum_range]
  have hn : 2 * n - n = n := by omega
  rw [hn]

/-- The weighted-mean accumulation over the `2L` off-center sigma columns:
the `+`/`−` spread terms cancel pairwise, leaving `2L` copies of the
augmented vector entry. -/
theorem sig_cols_offcenter_sum (nx nz : ℕ) (sg : ℚ) (a : Vec) (m old : Mat) (i : ℕ) :
    ∑ j ∈ Finset.range (2 * L nx nz), sig_cols nx nz sg a m old i (j + 1)
      = 2 * (L nx nz : ℚ) * a i := by
  rw [sum_range_two_mul]
  have e1 : ∀ j ∈ Finset.range (L nx nz),
      sig_cols nx nz sg a m old i (j + 1) = a i + sg * m i j := by
    intro j hj
    rw [Finset.mem_range] at hj
    rw [sig_cols_col_lo nx nz sg a m old i (j + 1) (by omega) (by omega)]
    simp
  have e2 : ∀ j ∈ Finset.range (L nx nz),
      sig_cols nx nz sg a m old i (L nx nz + j + 1) = a i - sg * m i j := by
    intro j hj
    rw [Finset.mem_range] at hj
    have hcol : L nx nz + j + 1 = (j + 1) + L nx nz := by omega
    rw [hcol, sig_cols_col_hi nx nz sg a m old i (j + 1) (by omega) (by omega)]
    simp
  rw [Finset.sum_congr rfl e1, Finset.sum_congr rfl e2]
  rw [Finset.sum_add_distrib, Finset.sum_sub_distrib, Finset.sum_const,
    Finset.card_range, nsmul_eq_mul]
  ring

/-! ### Concrete instances used by witnesses and counterexamples -/

def zeroVec : Vec := fun _ => 0

def oneVec : Vec := fun _ => 1

def zeroMat : Mat := fun _ _ => 0

def idMat : Mat := fun i j => if i = j then 1 else 0

/-- A substrate Cholesky stub for concrete evaluation: returns its input as
the factor, flag `true`. -/
def cholId : ℕ → Mat → Mat × Bool := fun _ m => (m, true)

def sqId : ℚ → ℚ := fun x => x

def mem0 : SBState :=
  { state := zeroVec, covar := zeroMat, aug_vector := zeroVec,
    aug_matrix := zeroMat, aug_sigmas := zeroMat, obs_sigmas := zeroMat,
    cross_covar := zeroMat }

def mem1 : SBState := { mem0 with state := oneVec, covar := idMat }

/-! ### Claim theorems -/

/-- Claim C5: for every i in 1..L, the sigma-point generator sets column i
of the augmented sigma-point matrix to the augmented vector plus
sqrt(gamma) times column i-1 of the augmented matrix, and column i+L to the
augmented vector minus the same scaled column. -/
theorem C5_generate_sigmas_columns (nx nz : ℕ) (cholL : ℕ → Mat → Mat × Bool)
    (sq : ℚ → ℚ) (gamma : ℚ) (state_k : Vec) (covar_k : Mat) (s : SBState)
    (k : ℕ) (hk1 : 1 ≤ k) (hk2 : k ≤ L nx nz) (i : ℕ) :
    (generate_sigmas nx nz cholL sq gamma state_k covar_k s).1.aug_sigmas i k
      = (generate_sigmas nx nz cholL sq gamma state_k covar_k s).1.aug_vector i
        + sq gamma
          * (generate_sigmas nx nz cholL sq gamma state_k covar_k s).1.aug_matrix i (k - 1)
    ∧ (generate_sigmas nx nz cholL sq gamma state_k covar_k s).1.aug_sigmas i (k + L nx nz)
      = (generate_sigmas nx nz cholL sq gamma state_k covar_k s).1.aug_vector i
        - sq gamma
          * (generate_sigmas nx nz cholL sq gamma state_k covar_k s).1.aug_matrix i (k - 1) := by
  rw [gs_aug_sigmas, gs_aug_vector, gs_aug_matrix]
  exact ⟨sig_cols_col_lo nx nz (sq gamma) _ _ _ i k hk1 hk2,
    sig_cols_col_hi nx nz (sq gamma) _ _ _ i k hk1 hk2⟩

theorem C5_generate_sigmas_columns_witness :
    (generate_sigmas 1 1 cholId sqId 4 oneVec idMat mem1).1.aug_sigmas 0 2
      = (generate_sigmas 1 1 cholId sqId 4 oneVec idMat mem1).1.aug_vector 0
        + sqId 4
          * (generate_sigmas 1 1 cholId sqId 4 oneVec idMat mem1).1.aug_matrix 0 1
    ∧ (generate_sigmas 1 1 cholId sqId 4 oneVec idMat mem1).1.aug_sigmas 0 (2 + L 1 1)
      = (generate_sigmas 1 1 cholId sqId 4 oneVec idMat mem1).1.aug_vector 0
        - sqId 4
          * (generate_sigmas 1 1 cholId sqId 4 oneVec idMat mem1).1.aug_matrix 0 1 :=
  C5_generate_sigmas_columns 1 1 cholId sqId 4 oneVec idMat mem1 2 (by decide) (by decide) 0

/-- Claim C4: after every sigma-point generation, column 0 of the augmented
sigma-point matrix equals the augmented vector, and for every i in 1..L,
sigma column i plus sigma column i+L equals twice the augmented vector,
regardless of the contents of the augmented matrix and of the covariance's
actual values. -/
theorem C4_generate_sigmas_symmetry (nx nz : ℕ) (cholL : ℕ → Mat → Mat × Bool)
    (sq : ℚ → ℚ) (gamma : ℚ) (state_k : Vec) (covar_k : Mat) (s : SBState) (i : ℕ) :
    (generate_sigmas nx nz cholL sq gamma state_k covar_k s).1.aug_sigmas i 0
      = (generate_sigmas nx nz cholL sq gamma state_k covar_k s).1.aug_vector i
    ∧ ∀ k, 1 ≤ k → k ≤ L nx nz →
      (generate_sigmas nx nz cholL sq gamma state_k covar_k s).1.aug_sigmas i k
        + (generate_sigmas nx nz cholL sq gamma state_k covar_k s).1.aug_sigmas i (k + L nx nz)
        = 2 * (generate_sigmas nx nz cholL sq gamma state_k covar_k s).1.aug_vector i := by
  rw [gs_aug_sigmas, gs_aug_vector]
  refine ⟨sig_cols_col_zero nx nz (sq gamma) _ _ _ i, ?_⟩
  intro k hk1 hk2
  rw [sig_cols_col_lo nx nz (sq gamma) _ _ _ i k hk1 hk2,
    sig_cols_col_hi nx nz (sq gamma) _ _ _ i k hk1 hk2]
  ring

theorem C4_generate_sigmas_symmetry_witness :
    (generate_sigmas 1 1 cholId sqId 4 oneVec idMat mem1).1.aug_sigmas 1 3
      + (generate_sigmas 1 1 cholId sqId 4 oneVec idMat mem1).1.aug_sigmas 1 (3 + L 1 1)
      = 2 * (generate_sigmas 1 1 cholId sqId 4 oneVec idMat mem1).1.aug_vector 1 :=
  (C4_generate_sigmas_symmetry 1 1 cholId sqId 4 oneVec idMat mem1 1).2 3
    (by decide) (by decide)

/-- Claim C7: after every sigma-point regeneration, the augmented vector
holds the current state in rows [0,nx), zero in rows [nx,2nx) (the
process-noise mean) and zero in rows [2nx,L) (the observation-noise mean).
The zero noise means come from the KFBase accessors modelled from the
spec. -/
theorem C7_generate_sigmas_aug_vector (nx nz : ℕ) (cholL : ℕ → Mat → Mat × Bool)
    (sq : ℚ → ℚ) (gamma : ℚ) (state_k : Vec) (covar_k : Mat) (s : SBState) (i : ℕ) :
    (i < nx →
      (generate_sigmas nx nz cholL sq gamma state_k covar_k s).1.aug_vector i = state_k i)
    ∧ (nx ≤ i → i < L nx nz →
      (generate_sigmas nx nz cholL sq gamma state_k covar_k s).1.aug_vector i = 0) := by
  rw [gs_aug_vector]
  unfold aug_vec proc_noise obs_noise
  constructor
  · intro hi
    rw [if_pos hi]
  · intro hi1 hi2
    rw [if_neg (by omega)]
    by_cases hc : i < nx + nx
    · rw [if_pos hc]
    · rw [if_neg hc, if_pos hi2]

theorem C7_generate_sigmas_aug_vector_witness :
    (generate_sigmas 1 1 cholId sqId 4 oneVec idMat mem1).1.aug_vector 0 = oneVec 0
    ∧ (generate_sigmas 1 1 cholId sqId 4 oneVec idMat mem1).1.aug_vector 1 = 0
    ∧ (generate_sigmas 1 1 cholId sqId 4 oneVec idMat mem1).1.aug_vector 2 = 0 :=
  ⟨(C7_generate_sigmas_aug_vector 1 1 cholId sqId 4 oneVec idMat mem1 0).1 (by decide),
    (C7_generate_sigmas_aug_vector 1 1 cholId sqId 4 oneVec idMat mem1 1).2
      (by decide) (by decide),
    (C7_generate_sigmas_aug_vector 1 1 cholId sqId 4 oneVec idMat mem1 2).2
      (by decide) (by decide)⟩

/-- Claim C9: calling the sigma-point generator twice in a row with
unchanged state, covariance and noise inputs yields a bit-identical
augmented sigma-point matrix after the second call as after the first. -/
theorem C9_generate_sigmas_idempotent (nx nz : ℕ) (cholL : ℕ → Mat → Mat × Bool)
    (sq : ℚ → ℚ) (gamma : ℚ) (state_k : Vec) (covar_k : Mat) (s : SBState) :
    (generate_sigmas nx nz cholL sq gamma state_k covar_k
        (generate_sigmas nx nz cholL sq gamma state_k covar_k s).1).1.aug_sigmas
      = (generate_sigmas nx nz cholL sq gamma state_k covar_k s).1.aug_sigmas := by
  rw [gs_aug_sigmas nx nz cholL sq gamma state_k covar_k
    (generate_sigmas nx nz cholL sq gamma state_k covar_k s).1]
  rw [gs_aug_vector, gs_aug_matrix, gs_aug_sigmas]
  rw [aug_vec_stable, writeBlock_stable, sig_cols_stable]

/-- Claim C10: every step operation of the core (`_process`,
`_process_covar`, `_observe`, `_innovation_covar`, `_kalman_gain`,
`_update_covar`) returns true unconditionally — for arbitrary model
functions, variant hooks and covariances, no operation ever returns false,
so no failure can be signalled through the boolean return value. -/
theorem C10_steps_return_true (nx nz : ℕ) (cholL : ℕ → Mat → Mat × Bool)
    (sq : ℚ → ℚ) (f : Vec → Vec → Vec → ℚ → Vec) (h : Vec → Vec → Vec)
    (hookp hookk hooku : Mat → Mat → Mat × Mat) (hooki : Mat → Mat)
    (wm0 wmi gamma : ℚ) (state_k control_k : Vec) (del_k : ℚ)
    (covar_k inov_k gain_k : Mat) (s : SBState) :
    (process nx nz cholL sq f wm0 wmi gamma state_k control_k del_k s).2.2 = true
    ∧ (process_covar nx hookp covar_k s).2.2 = true
    ∧ (observe nx nz cholL sq h wm0 wmi gamma s).2.2 = true
    ∧ (innovation_covar hooki inov_k s).2.2 = true
    ∧ (kalman_gain hookk gain_k s).2.2 = true
    ∧ (update_covar nx hooku covar_k s).2.2 = true :=
  ⟨rfl, rfl, rfl, rfl, rfl, rfl⟩

/-- Claim C3: for every augmented vector (generated from any state, with
any covariance and any indeterminate augmented-matrix contents) and every
gamma ≥ 0, if the process function is the identity and the mean weights
satisfy wm0 + 2L·wmi = 1, then the weighted mean computed by the process
step equals the state part of the augmented vector, i.e. the caller's
state. -/
theorem C3_process_mean_reproduction (nx nz : ℕ) (cholL : ℕ → Mat → Mat × Bool)
    (sq : ℚ → ℚ) (wm0 wmi gamma : ℚ) (state_k control_k : Vec) (del_k : ℚ)
    (s : SBState) (hg : 0 ≤ gamma)
    (hw : wm0 + 2 * (L nx nz : ℚ) * wmi = 1) (i : ℕ) (hi : i < nx) :
    (process nx nz cholL sq (fun st _ _ _ => st) wm0 wmi gamma state_k control_k del_k s).1 i
      = state_k i := by
  have ha : aug_vec nx nz state_k s.aug_vector i = state_k i := by
    unfold aug_vec
    rw [if_pos hi]
  simp only [process]
  simp only [ite_self]
  rw [gs_aug_sigmas]
  rw [sig_cols_col_zero, sig_cols_offcenter_sum, ha]
  linear_combination state_k i * hw

theorem C3_process_mean_reproduction_witness :
    (0 : ℚ) ≤ 4
    ∧ (1 / 2 : ℚ) + 2 * (L 1 1 : ℚ) * (1 / 12) = 1
    ∧ (process 1 1 cholId sqId (fun st _ _ _ => st) (1 / 2) (1 / 12) 4
        oneVec zeroVec 0 mem1).1 0 = oneVec 0 :=
  ⟨by norm_num, by norm_num [L],
    C3_process_mean_reproduction 1 1 cholId sqId (1 / 2) (1 / 12) 4 oneVec zeroVec 0
      mem1 (by norm_num) (by norm_num [L]) 0 (by norm_num)⟩

/-- Projection: the augmented matrix built by the constructor is the three
block writes onto the indeterminate member storage. -/
theorem construct_aug_matrix (nx nz : ℕ) (cholL : ℕ → Mat → Mat × Bool)
    (mem : SBState) (state0 : Vec) (covar0 proc_covar obs_covar : Mat) :
    (construct nx nz cholL mem state0 covar0 proc_covar obs_covar).aug_matrix
      = writeBlock
          (writeBlock (writeBlock mem.aug_matrix 0 0 nx nx (cholL nx covar0).1)
            nx nx nx nx (cholL nx proc_covar).1)
          (nx + nx) (nx + nx) nz nz (cholL nz obs_covar).1 := rfl

/-- Claim C8: the process-noise and observation-noise Cholesky factors are
written into their diagonal blocks at construction; sigma-point
regeneration, the process step and the observation step leave every
augmented-matrix entry outside the state block — in particular the two
noise blocks — unchanged, while regeneration overwrites the state block
with the Cholesky factor of the current covariance. -/
theorem C8_noise_chol_frame (nx nz : ℕ) (cholL : ℕ → Mat → Mat × Bool)
    (sq : ℚ → ℚ) (f : Vec → Vec → Vec → ℚ → Vec) (h : Vec → Vec → Vec)
    (wm0 wmi gamma : ℚ) (state_k control_k : Vec) (del_k : ℚ)
    (mem : SBState) (state0 : Vec) (covar0 proc_covar obs_covar covar_k : Mat)
    (s : SBState) :
    (∀ i j, nx ≤ i → i < nx + nx → nx ≤ j → j < nx + nx →
      (construct nx nz cholL mem state0 covar0 proc_covar obs_covar).aug_matrix i j
        = (cholL nx proc_covar).1 (i - nx) (j - nx))
    ∧ (∀ i j, nx + nx ≤ i → i < L nx nz → nx + nx ≤ j → j < L nx nz →
      (construct nx nz cholL mem state0 covar0 proc_covar obs_covar).aug_matrix i j
        = (cholL nz obs_covar).1 (i - (nx + nx)) (j - (nx + nx)))
    ∧ (∀ i j, ¬(i < nx ∧ j < nx) →
      (generate_sigmas nx nz cholL sq gamma state_k covar_k s).1.aug_matrix i j
        = s.aug_matrix i j)
    ∧ (∀ i j, ¬(i < nx ∧ j < nx) →
      (process nx nz cholL sq f wm0 wmi gamma state_k control_k del_k s).2.1.aug_matrix i j
        = s.aug_matrix i j)
    ∧ (∀ i j, ¬(i < nx ∧ j < nx) →
      (observe nx nz cholL sq h wm0 wmi gamma s).2.1.aug_matrix i j
        = s.aug_matrix i j)
    ∧ (∀ i j, i < nx → j < nx →
      (generate_sigmas nx nz cholL sq gamma state_k covar_k s).1.aug_matrix i j
        = (cholL nx covar_k).1 i j) := by
  have hL : L nx nz = nx + nx + nz := rfl
  refine ⟨?_, ?_, ?_, ?_, ?_, ?_⟩
  · intro i j h1 h2 h3 h4
    rw [construct_aug_matrix]
    unfold writeBlock
    rw [if_neg (by omega), if_pos (by omega)]
  · intro i j h1 h2 h3 h4
    rw [construct_aug_matrix]
    unfold writeBlock
    rw [if_pos (by omega)]
  · intro i j hij
    rw [gs_aug_matrix]
    unfold writeBlock
    rw [if_neg (by omega)]
  · intro i j hij
    have hp : (process nx nz cholL sq f wm0 wmi gamma state_k control_k del_k s).2.1.aug_matrix
        = writeBlock s.aug_matrix 0 0 nx nx (cholL nx s.covar).1 := rfl
    rw [hp]
    unfold writeBlock
    rw [if_neg (by omega)]
  · intro i j hij
    have ho : (observe nx nz cholL sq h wm0 wmi gamma s).2.1.aug_matrix
        = writeBlock s.aug_matrix 0 0 nx nx (cholL nx s.covar).1 := rfl
    rw [ho]
    unfold writeBlock
    rw [if_neg (by omega)]
  · intro i j h1 h2
    rw [gs_aug_matrix]
    unfold writeBlock
    rw [if_pos (by omega)]
    simp

theorem C8_noise_chol_frame_witness :
    (construct 1 1 cholId mem0 oneVec idMat idMat idMat).aug_matrix 1 1
      = (cholId 1 idMat).1 0 0
    ∧ (generate_sigmas 1 1 cholId sqId 4 oneVec idMat mem1).1.aug_matrix 2 2
      = mem1.aug_matrix 2 2 :=
  ⟨(C8_noise_chol_frame 1 1 cholId sqId (fun st _ _ _ => st) (fun st _ => st)
      1 1 4 oneVec zeroVec 0 mem0 oneVec idMat idMat idMat idMat mem1).1 1 1
      (by decide) (by decide) (by decide) (by decide),
    (C8_noise_chol_frame 1 1 cholId sqId (fun st _ _ _ => st) (fun st _ => st)
      1 1 4 oneVec zeroVec 0 mem0 oneVec idMat idMat idMat idMat mem1).2.2.1 2 2
      (by decide)⟩

/-! ### Refuted claims: evaluations of the code at the failing inputs -/

/-- Indeterminate pre-construction member storage holding 1 at the
off-diagonal-block entry (0,1) of the augmented matrix. -/
def garbageMem : SBState :=
  { mem0 with aug_matrix := fun i j => if i = 0 ∧ j = 1 then 1 else 0 }

/-- Claim C1 is refuted on the code: the constructor (and the generator)
write only the three diagonal blocks of the augmented matrix; every other
entry is never written at all and keeps whatever the value-uninitialized
member storage held.  With nx = nz = 1 and pre-construction storage holding
1 at the off-block entry (0,1), that entry still holds 1, not 0, after
construction. -/
theorem C1_construct_off_block_not_zeroed :
    (construct 1 1 cholId garbageMem oneVec idMat idMat idMat).aug_matrix 0 1 = 1
    ∧ ¬ (construct 1 1 cholId garbageMem oneVec idMat idMat idMat).aug_matrix 0 1 = 0 := by
  constructor <;> decide

/-- A 1×1 covariance matrix holding -1: not positive semi-definite. -/
def negDefMat : Mat := fun i j => if i = 0 ∧ j = 0 then -1 else 0

/-- Claim C2 is refuted on the code: `_generate_sigmas` never consults the
factorization's success indication.  For every substrate `cholL` — in
particular any whose flag reports failure on the non-positive-definite
covariance [[-1]] — the call still returns true and installs whatever
factor the substrate returned into the state block of the augmented
matrix: a silently wrong factor, not a surfaced failure. -/
theorem C2_generate_sigmas_no_psd_check (cholL : ℕ → Mat → Mat × Bool)
    (sq : ℚ → ℚ) (gamma : ℚ) (state_k : Vec) (s : SBState) :
    (generate_sigmas 1 1 cholL sq gamma state_k negDefMat s).2 = true
    ∧ (generate_sigmas 1 1 cholL sq gamma state_k negDefMat s).1.aug_matrix 0 0
      = (cholL 1 negDefMat).1 0 0 := by
  refine ⟨rfl, ?_⟩
  rw [gs_aug_matrix]
  unfold writeBlock
  rw [if_pos ⟨by omega, by omega, by omega, by omega⟩]

/-- Claim C6 is refuted on the code: `_generate_sigmas` performs no sign
check on gamma and contains no `InvalidSpreadFactor` path; with gamma = -1
it applies the square root to the negative value, uses the result to build
the spread columns, and returns true. -/
theorem C6_generate_sigmas_negative_gamma (cholL : ℕ → Mat → Mat × Bool)
    (sq : ℚ → ℚ) (state_k : Vec) (covar_k : Mat) (s : SBState) :
    (generate_sigmas 1 1 cholL sq (-1) state_k covar_k s).2 = true
    ∧ (generate_sigmas 1 1 cholL sq (-1) state_k covar_k s).1.aug_sigmas 0 1
      = (generate_sigmas 1 1 cholL sq (-1) state_k covar_k s).1.aug_vector 0
        + sq (-1)
          * (generate_sigmas 1 1 cholL sq (-1) state_k covar_k s).1.aug_matrix 0 0 := by
  refine ⟨rfl, ?_⟩
  rw [gs_aug_sigmas, gs_aug_vector, gs_aug_matrix]
  exact sig_cols_col_lo 1 1 (sq (-1)) _ _ _ 0 1 (by omega) (by decide)

end spkf
